import Mathlib

/-!
Verification of the commit-message generation workflow of `src/cli/llm_commit.py`.

Python strings are modelled as lists of characters (`Str`); the Python string
operations used by the script (`strip`, `rstrip`, `lower`, `split`, membership)
are defined below over that representation.  The interactive pipeline of
`main` is modelled as a function of the run options, an environment describing
the outside world (git command outputs and exit statuses, the HTTP response,
the user's answers to each prompt), and a fuel bound for the one recursive
routine; it returns the trace of externally visible actions together with the
process outcome.
-/

namespace LlmCommit

/-- Characters of a Python string. -/
abbrev Str := List Char

/-- ASCII whitespace stripped by Python's str.strip(). -/
def isPySpace (c : Char) : Bool :=
  c = ' ' || c = '\t' || c = '\n' || c = '\r' || c = '\x0b' || c = '\x0c'

/-- Remove the longest suffix of characters satisfying p. -/
def dropTrailing (p : Char → Bool) (l : Str) : Str :=
  ((l.reverse).dropWhile p).reverse

/-- Python str.strip(): remove leading and trailing whitespace. -/
def pyStrip (l : Str) : Str := dropTrailing isPySpace (l.dropWhile isPySpace)

/-- The trailing-punctuation set of generate_commit_message: ".!?,;:". -/
def isTrailPunct (c : Char) : Bool :=
  c = '.' || c = '!' || c = '?' || c = ',' || c = ';' || c = ':'

/-- Python message.rstrip(".!?,;:"). -/
def pyRstripPunct (l : Str) : Str := dropTrailing isTrailPunct l

/-- Python str.lower(), restricted to ASCII letters. -/
def asciiLower (c : Char) : Char :=
  if 'A' ≤ c && c ≤ 'Z' then Char.ofNat (c.toNat + 32) else c

/-- Python str.lower() over a whole string. -/
def pyLower (l : Str) : Str := l.map asciiLower

/-- Python s.split("\n"): always returns at least one chunk. -/
def splitLines (l : Str) : List Str :=
  match l with
  | [] => [[]]
  | c :: rest =>
    if c = '\n' then [] :: splitLines rest
    else
      match splitLines rest with
      | [] => [[c]]
      | h :: t => (c :: h) :: t

/-- Python `c in s` for a single character. -/
def containsChar (l : Str) (c : Char) : Bool := l.any (fun x => x == c)

/-- Post-processing of the raw Ollama response in generate_commit_message:
strip surrounding whitespace; if the result spans several lines keep only the
first line (itself stripped) when that is nonempty; then strip trailing
punctuation from ".!?,;:". -/
def postProcess (raw : Str) : Str :=
  let message := pyStrip raw
  let message1 :=
    if containsChar message '\n' then
      let firstLine := pyStrip ((splitLines message).headD [])
      if firstLine ≠ [] then firstLine else message
    else message
  pyRstripPunct message1

/-- The first non-empty line of a string, [] if there is none. -/
def firstNonEmptyLine (l : Str) : Str :=
  ((splitLines l).filter (fun s => !s.isEmpty)).headD []

/-- Claim C6's formula, word for word: the first non-empty line of the
whitespace-trimmed response with trailing punctuation stripped from its end
(the line itself is not re-trimmed). -/
def claimC6Post (raw : Str) : Str :=
  pyRstripPunct (firstNonEmptyLine (pyStrip raw))

/-- Amended formula: the first non-empty line is itself whitespace-trimmed
before the trailing punctuation is stripped. -/
def amendedC6Post (raw : Str) : Str :=
  pyRstripPunct (pyStrip (firstNonEmptyLine (pyStrip raw)))

/-- ASCII uppercase letter, the character class [A-Z]. -/
def isUpperAZ (c : Char) : Bool := 'A' ≤ c && c ≤ 'Z'

/-- ASCII digit, the character class [0-9]. -/
def isDigit09 (c : Char) : Bool := '0' ≤ c && c ≤ '9'

/-- The separators (slash or hyphen) after which a ticket may start. -/
def isTicketSep (c : Char) : Bool := c = '/' || c = '-'

/-- One attempt of the regex body [A-Z]+-[0-9]+ at the front of l: the
greedy run of uppercase letters, a hyphen, then the greedy run of digits
(shorter runs can never succeed where the maximal ones fail, so greedy
matching loses nothing). -/
def ticketAt (l : Str) : Option Str :=
  let u := l.takeWhile isUpperAZ
  if u = [] then none
  else
    let rest := l.dropWhile isUpperAZ
    if rest.head? = some '-' then
      let d := rest.tail.takeWhile isDigit09
      if d = [] then none else some (u ++ '-' :: d)
    else none

/-- Left-to-right scan of re.search with the anchored ticket pattern; the flag
says whether the current position is a legal match start (true initially for
^, afterwards exactly after a '/' or '-'). -/
def searchTicket (elig : Bool) : Str → Option Str
  | [] => none
  | c :: rest =>
    match (if elig then ticketAt (c :: rest) else none) with
    | some t => some t
    | none => searchTicket (isTicketSep c) rest

/-- Python substring membership `needle in hay`. -/
def isSubstring (needle : Str) : Str → Bool
  | [] => needle.isEmpty
  | c :: rest => needle.isPrefixOf (c :: rest) || isSubstring needle rest

/-- The literal "nojira" tested against the lowered branch name. -/
def nojiraLower : Str := "nojira".toList

/-- The fixed ticket returned for nojira branches. -/
def nojiraTicket : Str := "NOJIRA".toList

/-- extract_ticket_from_branch; the success flag and stdout of the underlying
git rev-parse call are inputs. -/
def extractTicketFromBranch (revOk : Bool) (stdout : Str) : Option Str :=
  if revOk then
    let branchName := pyStrip stdout
    match searchTicket true branchName with
    | some t => some t
    | none =>
      if isSubstring nojiraLower (pyLower branchName) then some nojiraTicket
      else none
  else none

/-- A nonempty run of uppercase ASCII letters. -/
def UpperRun (u : Str) : Prop := u ≠ [] ∧ ∀ c ∈ u, isUpperAZ c = true

/-- A nonempty run of ASCII digits. -/
def DigitRun (d : Str) : Prop := d ≠ [] ∧ ∀ c ∈ d, isDigit09 c = true

/-- Declarative reading of the regex body matching at the front of l and
producing t: letters, hyphen, digits, the digit run maximal (as the regex
captures it). -/
def TicketAtSpec (l t : Str) : Prop :=
  ∃ u d r, UpperRun u ∧ DigitRun d ∧ t = u ++ '-' :: d ∧
    l = u ++ '-' :: (d ++ r) ∧ ∀ c, r.head? = some c → isDigit09 c = false

/-- Position i of l is a legal match start given the start-of-string flag:
i = 0 when the flag holds, or the previous character is '/' or '-'. -/
def EligAt (elig : Bool) (l : Str) : Nat → Prop
  | 0 => elig = true
  | Nat.succ i => ∃ c, l[i]? = some c ∧ isTicketSep c = true

/-- t is produced by the leftmost legal match of the ticket pattern in l. -/
def FirstTicketMatch (elig : Bool) (l t : Str) : Prop :=
  ∃ i, EligAt elig l i ∧ TicketAtSpec (l.drop i) t ∧
    ∀ j, j < i → EligAt elig l j → ∀ s, ¬ TicketAtSpec (l.drop j) s

/-- \w of the re module, ASCII: letters, digits and underscore. -/
def isWordChar (c : Char) : Bool :=
  ('A' ≤ c && c ≤ 'Z') || ('a' ≤ c && c ≤ 'z') || ('0' ≤ c && c ≤ '9') || c = '_'

/-- Whether position i of msg holds a word character (false past the end). -/
def wordAt (msg : Str) (i : Nat) : Bool :=
  match msg[i]? with
  | some c => isWordChar c
  | none => false

/-- The regex \b at position i: exactly one side is a word character. -/
def boundaryAt (msg : Str) (i : Nat) : Bool :=
  (if i = 0 then false else wordAt msg (i - 1)) != wordAt msg i

/-- re.search(rf'\b{...}\b', message) as a Boolean: the escaped ticket occurs
somewhere with word boundaries on both sides. -/
def containsTicketWord (msg t : Str) : Bool :=
  (List.range (msg.length + 1)).any
    (fun i => t.isPrefixOf (msg.drop i) && boundaryAt msg i && boundaryAt msg (i + t.length))

/-- The ticket-prefix insertion of main: prepend "<ticket>: " unless the
message already contains the ticket as a whole word. -/
def withTicket (t msg : Str) : Str :=
  if containsTicketWord msg t then msg else t ++ ':' :: ' ' :: msg

/-- Shared template text between the two substitution slots. -/
def promptMid : Str := "\n\nDiff:\n".toList

/-- Shared template text after the second substitution slot. -/
def promptEnd : Str := "\n".toList

/-- The conventional-style template up to the file-list slot. -/
def conventionalPre : Str := ("\nYou are a helpful assistant that generates high-quality git commit messages in the Conventional Commits format.\n\nBased on the diff below, write a VERY CONCISE and informative commit message in the format:\n<type>(<scope>): <description>\n\nWhere:\n- type: feat, fix, docs, style, refactor, test, chore, etc.\n- scope: optional area affected (e.g., component name, file type)\n- description: concise description of the change in imperative mood (UNDER 50 CHARACTERS TOTAL)\n\nDo not include a body or footer section. Focus on WHY the change was made, not WHAT was changed.\nBE EXTREMELY BRIEF - the entire message should be under 50 characters if possible.\nReturn ONLY the commit message, nothing else.\n\nChanged files:\n").toList

/-- The compact-style template up to the file-list slot. -/
def compactPre : Str := ("\nYou are a helpful assistant that generates extremely short git commit messages.\n\nBased on the diff below, write an ULTRA-COMPACT commit message:\n- MAXIMUM 30 CHARACTERS TOTAL\n- Use imperative mood (e.g., \"Add\", \"Fix\", \"Update\", \"Remove\")\n- Focus on the core purpose of the change\n- Be specific but extremely brief\n- No punctuation at the end\n\nReturn ONLY the commit message, nothing else.\n\nChanged files:\n").toList

/-- The detailed-style template up to the file-list slot. -/
def detailedPre : Str := ("\nYou are a helpful assistant that generates high-quality git commit messages with detailed explanations.\n\nBased on the diff below, write an informative commit message with:\n1. A short, specific summary line (50-72 chars)\n2. A detailed description explaining WHY the change was made\n3. Any important context or implications\n\nReturn ONLY the commit message, nothing else.\n\nChanged files:\n").toList

/-- The concise-style template up to the file-list slot. -/
def concisePre : Str := ("\nYou are a helpful assistant that generates concise git commit messages.\n\nBased on the diff below, write a single line, concise and informative commit message.\n- Keep the message under 60 characters\n- Focus on WHY the change was made, not WHAT was changed\n- Use imperative mood, as if giving a command\n- No description or body text\n\nReturn ONLY the commit message, nothing else.\n\nChanged files:\n").toList

/-- template.format(files_text, diff): fill the two slots in order. -/
def formatTemplate (pre filesText diff : Str) : Str :=
  pre ++ filesText ++ promptMid ++ diff ++ promptEnd

/-- create_prompt; the final branch of the if/elif chain catches every style
other than the three named ones, concise included. -/
def createPrompt (diff style : Str) (files : List Str) : Str :=
  let pre :=
    if style = "conventional".toList then conventionalPre
    else if style = "compact".toList then compactPre
    else if style = "detailed".toList then detailedPre
    else concisePre
  formatTemplate pre (List.intercalate ['\n'] files) diff

/-- The enumerated style set of the spec. -/
def styleSet : List Str :=
  ["conventional".toList, "compact".toList, "detailed".toList, "concise".toList]

/-- Claim C4's contract for build(diff, style, files): a substituted prompt
for the four enumerated styles, failure (none) for any other style. -/
def claimC4Build (diff style : Str) (files : List Str) : Option Str :=
  if style ∈ styleSet then some (createPrompt diff style files) else none

/-- The command-line options of the script. -/
structure Opts where
  model : Str
  style : Str
  edit : Bool
  dryRun : Bool
  verbose : Bool
  prefixFlag : Bool
  push : Bool
  yes : Bool
  branch : Option Str
  pr : Bool
  base : Str
  prEdit : Bool

/-- Environment of a run: outputs and exit statuses of external commands, the
HTTP response, and the user's answer to every prompt.  The Nat-indexed fields
give the values seen by the k-th invocation inside the get_git_diff
recursion. -/
structure Env where
  gitOk : Bool
  ollamaOk : Bool
  branchExists : Bool
  switchChoice : Str
  checkoutOk : Bool
  checkoutNewOk : Bool
  stagedOk : Nat → Bool
  stagedOut : Nat → Str
  unstagedOut : Nat → Str
  stageChoice : Nat → Str
  addOk : Nat → Bool
  filesOk : Bool
  filesOut : Str
  httpOk : Bool
  rawResponse : Str
  ticketRevOk : Bool
  ticketBranchOut : Str
  editorRaises : Bool
  editorExitCode : Nat
  editorReadRaises : Bool
  editedMessage : Str
  commitChoice : Str
  commitOk : Bool
  pushPromptChoice : Str
  pushRevOk : Bool
  pushBranchOut : Str
  pushCmdOk : Bool
  prPromptChoice : Str
  baseLocalOk : Bool
  remoteOk : Bool
  remoteOut : Str
  fetchOk : Bool
  prCmdOk : Bool

/-- Externally visible actions of a run. -/
inductive Action where
  | checkGit
  | checkOllama
  | runShowRef
  | promptSwitch
  | runCheckoutExisting
  | runCheckoutNew
  | runDiffStaged (k : Nat)
  | runDiffUnstaged (k : Nat)
  | promptStage (k : Nat)
  | runGitAdd (k : Nat)
  | printNothingToDo
  | runDiffNameOnly
  | runGenerate
  | runTicketRevParse
  | displayMessage (m : Str)
  | openEditor
  | promptCommit
  | runCommit (m : Str)
  | promptPush
  | runPushRevParse
  | runPush
  | promptPr
  | runCheckBase
  | runRemoteList
  | runFetchBase
  | runPrTool
  | printDryRun
  deriving DecidableEq

/-- Process outcome: an explicit exit code, an uncaught exception, or the
fuel bound of the modelled recursion being reached. -/
inductive Outcome where
  | exit (code : Nat)
  | crashed
  | fuelOut
  deriving DecidableEq

/-- check_dependencies: git and the Ollama server must both respond. -/
def checkDependencies (env : Env) : List Action × Option Outcome :=
  if !env.gitOk then ([.checkGit], some (.exit 1))
  else if !env.ollamaOk then ([.checkGit, .checkOllama], some (.exit 1))
  else ([.checkGit, .checkOllama], none)

/-- create_branch: switch to an existing branch after confirmation, or create
a new branch; false means the caller must halt. -/
def createBranch (env : Env) : List Action × Bool :=
  if env.branchExists then
    if pyLower env.switchChoice = ['n'] then
      ([.runShowRef, .promptSwitch], false)
    else if env.checkoutOk then
      ([.runShowRef, .promptSwitch, .runCheckoutExisting], true)
    else
      ([.runShowRef, .promptSwitch, .runCheckoutExisting], false)
  else if env.checkoutNewOk then ([.runShowRef, .runCheckoutNew], true)
  else ([.runShowRef, .runCheckoutNew], false)

/-- Result of get_git_diff: a diff, or the process halting. -/
inductive DiffResult where
  | diff (s : Str)
  | halt (o : Outcome)
  deriving DecidableEq

/-- get_git_diff: return the staged diff when nonempty; otherwise, when
unstaged changes exist, offer to stage everything and recurse.  The source
recursion is modelled with explicit fuel; k numbers the invocation.  The
`git add` call uses check=True, so its failure raises (modelled .crashed). -/
def getGitDiff (env : Env) : Nat → Nat → List Action × DiffResult
  | 0, _ => ([], .halt .fuelOut)
  | fuel + 1, k =>
    if !env.stagedOk k then ([.runDiffStaged k], .halt (.exit 1))
    else if pyStrip (env.stagedOut k) = [] then
      if pyStrip (env.unstagedOut k) ≠ [] then
        if pyLower (env.stageChoice k) = ['y'] then
          if env.addOk k then
            let next := getGitDiff env fuel (k + 1)
            ([.runDiffStaged k, .runDiffUnstaged k, .promptStage k, .runGitAdd k] ++ next.1,
              next.2)
          else
            ([.runDiffStaged k, .runDiffUnstaged k, .promptStage k, .runGitAdd k],
              .halt .crashed)
        else
          ([.runDiffStaged k, .runDiffUnstaged k, .promptStage k, .printNothingToDo],
            .halt (.exit 0))
      else
        ([.runDiffStaged k, .runDiffUnstaged k, .printNothingToDo], .halt (.exit 0))
    else ([.runDiffStaged k], .diff (env.stagedOut k))

/-- The file-level steps of edit_message. -/
inductive EditAction where
  | writeTmp (m : Str)
  | callEditor
  | readTmp
  | unlinkTmp
  deriving DecidableEq

/-- edit_message: write the message to a temp file, invoke the editor as a
blocking process (the call may raise, e.g. when the editor binary is missing;
a plain nonzero exit status does not raise and is ignored), reread the file,
and unlink it.  There is no try/finally, so a raise skips the unlink. -/
def editMessage (env : Env) (message : Str) : List EditAction × Except Unit Str :=
  if env.editorRaises then
    ([.writeTmp message, .callEditor], .error ())
  else if env.editorReadRaises then
    ([.writeTmp message, .callEditor, .readTmp], .error ())
  else
    ([.writeTmp message, .callEditor, .readTmp, .unlinkTmp], .ok env.editedMessage)

/-- get_current_branch inside push_changes. -/
def getCurrentBranch (env : Env) : List Action × Option Str :=
  if env.pushRevOk then ([.runPushRevParse], some (pyStrip env.pushBranchOut))
  else ([.runPushRevParse], none)

/-- push_changes: look up the current branch, then push with upstream. -/
def pushChanges (env : Env) : List Action × Bool :=
  let g := getCurrentBranch env
  match g.2 with
  | none => (g.1, false)
  | some b =>
    if b = [] then (g.1, false)
    else if env.pushCmdOk then (g.1 ++ [.runPush], true)
    else (g.1 ++ [.runPush], false)

/-- check_base_branch: soft check that the PR base branch is available. -/
def checkBaseBranch (env : Env) : List Action × Bool :=
  if env.baseLocalOk then ([.runCheckBase], true)
  else if !env.remoteOk || pyStrip env.remoteOut = [] then
    ([.runCheckBase, .runRemoteList], false)
  else if env.fetchOk then ([.runCheckBase, .runRemoteList, .runFetchBase], true)
  else ([.runCheckBase, .runRemoteList, .runFetchBase], false)

/-- create_pr: ensure the base branch (soft), then run the llm_pr tool. -/
def createPr (env : Env) : List Action × Bool :=
  let c := checkBaseBranch env
  (c.1 ++ [.runPrTool], env.prCmdOk)

/-- create_commit: confirmation prompt, commit, then push automatically or
after a prompt.  Returns some outcome when the process exits inside it; the
caller cannot observe whether the commit was cancelled. -/
def createCommitInteractive (env : Env) (message : Str) (autoPush : Bool) :
    List Action × Option Outcome :=
  if pyLower env.commitChoice = ['n'] then ([.promptCommit], none)
  else if !env.commitOk then ([.promptCommit, .runCommit message], some (.exit 1))
  else
    let base := [Action.promptCommit, Action.runCommit message]
    if autoPush then
      let p := pushChanges env
      (base ++ p.1, none)
    else if pyLower env.pushPromptChoice = ['y'] then
      let p := pushChanges env
      (base ++ [Action.promptPush] ++ p.1, none)
    else (base ++ [Action.promptPush], none)

/-- The commit/push/PR phase of main once the final message is fixed (lines
549-590): non-interactive in yes mode, otherwise via create_commit, with
commit_success set to True in main even when the user declined the commit. -/
def commitPhase (opts : Opts) (env : Env) (message : Str) : List Action × Outcome :=
  if !opts.dryRun then
    if opts.yes then
      if !env.commitOk then ([.runCommit message], .exit 1)
      else
        let pushStep : List Action × Bool :=
          if opts.push || opts.pr then pushChanges env else ([], false)
        if opts.pr && pushStep.2 then
          let pr := createPr env
          ([Action.runCommit message] ++ pushStep.1 ++ pr.1, .exit 0)
        else ([Action.runCommit message] ++ pushStep.1, .exit 0)
    else
      let cc := createCommitInteractive env message opts.push
      match cc.2 with
      | some o => (cc.1, o)
      | none =>
        if opts.pr && !opts.push then
          if pyLower env.prPromptChoice = ['y'] then
            let p := pushChanges env
            if p.2 then
              let pr := createPr env
              (cc.1 ++ [Action.promptPr] ++ p.1 ++ pr.1, .exit 0)
            else (cc.1 ++ [Action.promptPr] ++ p.1, .exit 0)
          else (cc.1 ++ [Action.promptPr], .exit 0)
        else if opts.pr && opts.push then
          if pyLower env.prPromptChoice = ['y'] then
            let pr := createPr env
            (cc.1 ++ [Action.promptPr] ++ pr.1, .exit 0)
          else (cc.1 ++ [Action.promptPr], .exit 0)
        else (cc.1, .exit 0)
  else ([.printDryRun], .exit 0)

/-- The optional branch step of main: only entered when a branch option was
supplied. -/
def branchPhase (opts : Opts) (env : Env) : List Action × Bool :=
  match opts.branch with
  | none => ([], true)
  | some _ => createBranch env

/-- main: dependency check, optional branch step, diff collection, prompt
construction, generation, optional ticket prefix, display, optional edit,
then the commit phase.  An exception out of edit_message is uncaught. -/
def mainRun (opts : Opts) (env : Env) (fuel : Nat) : List Action × Outcome :=
  let dep := checkDependencies env
  match dep.2 with
  | some o => (dep.1, o)
  | none =>
    let branchStep := branchPhase opts env
    if !branchStep.2 then (dep.1 ++ branchStep.1, .exit 1)
    else
      let dstep := getGitDiff env fuel 0
      match dstep.2 with
      | .halt o => (dep.1 ++ branchStep.1 ++ dstep.1, o)
      | .diff diffText =>
        if !env.filesOk then
          (dep.1 ++ branchStep.1 ++ dstep.1 ++ [Action.runDiffNameOnly], .exit 1)
        else
          let files := splitLines (pyStrip env.filesOut)
          let _prompt := createPrompt diffText opts.style files
          let pre := dep.1 ++ branchStep.1 ++ dstep.1 ++
            [Action.runDiffNameOnly, Action.runGenerate]
          if !env.httpOk then (pre, .exit 1)
          else
            let message0 := postProcess env.rawResponse
            let tPrefix : List Action :=
              if opts.prefixFlag then [Action.runTicketRevParse] else []
            let message1 :=
              if opts.prefixFlag then
                match extractTicketFromBranch env.ticketRevOk env.ticketBranchOut with
                | some t => withTicket t message0
                | none => message0
              else message0
            let pre2 := pre ++ tPrefix ++ [Action.displayMessage message1]
            if opts.edit then
              match (editMessage env message1).2 with
              | .error _ => (pre2 ++ [Action.openEditor], .crashed)
              | .ok m2 =>
                let cp := commitPhase opts env m2
                (pre2 ++ [Action.openEditor] ++ cp.1, cp.2)
            else
              let cp := commitPhase opts env message1
              (pre2 ++ cp.1, cp.2)

/-- Recognizes a commit invocation in a trace. -/
def isCommitAction : Action → Bool
  | .runCommit _ => true
  | _ => false

/-- Actions that get_git_diff can emit. -/
def isDiffPhaseAction : Action → Bool
  | .runDiffStaged _ => true
  | .runDiffUnstaged _ => true
  | .promptStage _ => true
  | .runGitAdd _ => true
  | .printNothingToDo => true
  | _ => false

/-- Actions that main can emit before its commit/push/PR phase. -/
def isPrePhaseAction : Action → Bool
  | .checkGit => true
  | .checkOllama => true
  | .runShowRef => true
  | .promptSwitch => true
  | .runCheckoutExisting => true
  | .runCheckoutNew => true
  | .runDiffStaged _ => true
  | .runDiffUnstaged _ => true
  | .promptStage _ => true
  | .runGitAdd _ => true
  | .printNothingToDo => true
  | .runDiffNameOnly => true
  | .runGenerate => true
  | .runTicketRevParse => true
  | .displayMessage _ => true
  | .openEditor => true
  | _ => false

/-- A fully successful environment used to instantiate concrete runs. -/
def baseEnv : Env where
  gitOk := true
  ollamaOk := true
  branchExists := false
  switchChoice := []
  checkoutOk := true
  checkoutNewOk := true
  stagedOk := fun _ => true
  stagedOut := fun _ => ['d']
  unstagedOut := fun _ => []
  stageChoice := fun _ => []
  addOk := fun _ => true
  filesOk := true
  filesOut := ['f']
  httpOk := true
  rawResponse := ['m']
  ticketRevOk := true
  ticketBranchOut := []
  editorRaises := false
  editorExitCode := 0
  editorReadRaises := false
  editedMessage := ['e']
  commitChoice := []
  commitOk := true
  pushPromptChoice := []
  pushRevOk := true
  pushBranchOut := ['b']
  pushCmdOk := true
  prPromptChoice := []
  baseLocalOk := true
  remoteOk := true
  remoteOut := ['o']
  fetchOk := true
  prCmdOk := true

/-- Default options: conventional style, every flag off. -/
def baseOpts : Opts where
  model := []
  style := "conventional".toList
  edit := false
  dryRun := false
  verbose := false
  prefixFlag := false
  push := false
  yes := false
  branch := none
  pr := false
  base := "main".toList
  prEdit := false

/-- An environment whose staged diff stays empty while unstaged changes stay
present and the user keeps accepting the staging offer. -/
def envLoop : Env :=
  { baseEnv with
    stagedOut := fun _ => []
    unstagedOut := fun _ => ['u']
    stageChoice := fun _ => ['y'] }

theorem splitLines_ne_nil (l : Str) : splitLines l ≠ [] := by
  induction l with
  | nil => simp [splitLines]
  | cons c rest ih =>
    simp only [splitLines]
    split
    · simp
    · cases h : splitLines rest with
      | nil => simp
      | cons a b => simp

theorem splitLines_head (l : Str) :
    (splitLines l).headD [] = l.takeWhile (fun c => !(c == '\n')) := by
  induction l with
  | nil => simp [splitLines]
  | cons c rest ih =>
    simp only [splitLines]
    by_cases hc : c = '\n'
    · subst hc
      simp [List.takeWhile_cons]
    · have hb : (c == '\n') = false := by simp [hc]
      simp only [if_neg hc]
      cases h : splitLines rest with
      | nil => exact absurd h (splitLines_ne_nil rest)
      | cons a b =>
        simp only [List.headD_cons]
        rw [h] at ih
        simp only [List.headD_cons] at ih
        rw [List.takeWhile_cons, hb]
        simp [ih]

theorem splitLines_of_not_contains (l : Str) (h : containsChar l '\n' = false) :
    splitLines l = [l] := by
  induction l with
  | nil => simp [splitLines]
  | cons c rest ih =>
    simp only [containsChar, List.any_cons, Bool.or_eq_false_iff] at h
    obtain ⟨hc, hrest⟩ := h
    have hc' : c ≠ '\n' := by
      intro hcc; subst hcc; simp at hc
    simp only [splitLines, if_neg hc']
    rw [ih hrest]

theorem containsChar_eq_false_iff (l : Str) (c : Char) :
    containsChar l c = false ↔ c ∉ l := by
  constructor
  · intro h hc
    have ht : containsChar l c = true :=
      List.any_eq_true.mpr ⟨c, hc, by simp⟩
    rw [h] at ht
    exact absurd ht (by simp)
  · intro h
    by_contra hb
    rw [Bool.not_eq_false] at hb
    obtain ⟨x, hx, hxc⟩ := List.any_eq_true.mp hb
    rw [beq_iff_eq] at hxc
    exact h (hxc ▸ hx)

theorem head?_dropWhile_not (p : Char → Bool) (l : Str) (c : Char)
    (h : (l.dropWhile p).head? = some c) : p c = false := by
  have := List.head?_dropWhile_not p l
  rw [h] at this
  exact this

theorem dropWhile_eq_self_of_head (p : Char → Bool) (l : Str)
    (h : ∀ c, l.head? = some c → p c = false) : l.dropWhile p = l := by
  cases l with
  | nil => simp
  | cons a rest =>
    have := h a rfl
    simp [List.dropWhile_cons, this]

theorem dropTrailing_append (p : Char → Bool) (l : Str) :
    dropTrailing p l ++ (l.reverse.takeWhile p).reverse = l := by
  unfold dropTrailing
  rw [← List.reverse_append, List.takeWhile_append_dropWhile, List.reverse_reverse]

theorem dropTrailing_eq_nil_iff (p : Char → Bool) (l : Str) :
    dropTrailing p l = [] ↔ ∀ c ∈ l, p c = true := by
  unfold dropTrailing
  rw [List.reverse_eq_nil_iff, List.dropWhile_eq_nil_iff]
  constructor
  · intro h c hc
    exact h c (by simpa using hc)
  · intro h c hc
    exact h c (by simpa using hc)

theorem getLast?_dropTrailing_not (p : Char → Bool) (l : Str) (c : Char)
    (h : (dropTrailing p l).getLast? = some c) : p c = false := by
  unfold dropTrailing at h
  rw [List.getLast?_reverse] at h
  exact head?_dropWhile_not p l.reverse c h

theorem dropTrailing_eq_self (p : Char → Bool) (l : Str)
    (h : ∀ c, l.getLast? = some c → p c = false) : dropTrailing p l = l := by
  unfold dropTrailing
  have : l.reverse.dropWhile p = l.reverse := by
    apply dropWhile_eq_self_of_head
    intro c hc
    rw [List.head?_reverse] at hc
    exact h c hc
  rw [this, List.reverse_reverse]

theorem head?_append_left {α : Type} (a b : List α) (h : a ≠ []) :
    (a ++ b).head? = a.head? := by
  cases a with
  | nil => exact absurd rfl h
  | cons x xs => simp

theorem head?_dropTrailing (p : Char → Bool) (m : Str) (c : Char)
    (h : (dropTrailing p m).head? = some c) : m.head? = some c := by
  have hne : dropTrailing p m ≠ [] := by
    intro hnil; rw [hnil] at h; simp at h
  have hl := head?_append_left (dropTrailing p m) ((m.reverse.takeWhile p).reverse) hne
  rw [dropTrailing_append] at hl
  rw [hl, h]

theorem pyStrip_head_not_space (l : Str) (c : Char)
    (h : (pyStrip l).head? = some c) : isPySpace c = false := by
  unfold pyStrip at h
  have hd : (l.dropWhile isPySpace).head? = some c :=
    head?_dropTrailing isPySpace (l.dropWhile isPySpace) c h
  exact head?_dropWhile_not isPySpace l c hd

theorem pyStrip_getLast_not_space (l : Str) (c : Char)
    (h : (pyStrip l).getLast? = some c) : isPySpace c = false := by
  exact getLast?_dropTrailing_not isPySpace (l.dropWhile isPySpace) c h

theorem pyStrip_idem (l : Str) : pyStrip (pyStrip l) = pyStrip l := by
  unfold pyStrip
  have h1 : (pyStrip l).dropWhile isPySpace = pyStrip l := by
    apply dropWhile_eq_self_of_head
    intro c hc
    exact pyStrip_head_not_space l c hc
  show dropTrailing isPySpace ((pyStrip l).dropWhile isPySpace) = pyStrip l
  rw [h1]
  apply dropTrailing_eq_self
  intro c hc
  exact pyStrip_getLast_not_space l c hc

theorem pyStrip_cons_ne_nil (c : Char) (rest : Str) (h : isPySpace c = false) :
    pyStrip (c :: rest) ≠ [] := by
  unfold pyStrip
  rw [List.dropWhile_cons, h]
  simp only [Bool.false_eq_true, if_false]
  rw [Ne, dropTrailing_eq_nil_iff]
  intro hall
  have := hall c (by simp)
  rw [h] at this
  exact absurd this (by simp)

theorem postProcess_eq (raw : Str) :
    postProcess raw =
      pyRstripPunct
        (if containsChar (pyStrip raw) '\n' then
          (if pyStrip ((splitLines (pyStrip raw)).headD []) ≠ [] then
            pyStrip ((splitLines (pyStrip raw)).headD [])
          else pyStrip raw)
        else pyStrip raw) := by
  simp only [postProcess]

/-- C6, counterexample: for the raw response "Fix parser bug. \nExtra." the
code post-processes to "Fix parser bug", while the claim's formula keeps the
first line's trailing space, which then shields the period from the
punctuation strip, giving "Fix parser bug. ". -/
theorem claim_C6_cex :
    postProcess ("Fix parser bug. \nExtra.".toList) ≠
      claimC6Post ("Fix parser bug. \nExtra.".toList) := by decide

/-- C6, amended: for every raw response, the post-processed commit message
equals the first non-empty line of the whitespace-trimmed response, that line
itself whitespace-trimmed, with all trailing characters from ".!?,;:"
stripped from its end. -/
theorem claim_C6_thm (raw : Str) : postProcess raw = amendedC6Post raw := by
  by_cases hnl : containsChar (pyStrip raw) '\n' = true
  case pos =>
    cases hm : pyStrip raw with
    | nil => rw [hm] at hnl; exact absurd hnl (by decide)
    | cons c rest =>
      have hc : (pyStrip raw).head? = some c := by rw [hm]; rfl
      have hcs : isPySpace c = false := pyStrip_head_not_space raw c hc
      have hcnl : (c == '\n') = false := by
        rw [beq_eq_false_iff_ne]
        intro he
        rw [he] at hcs
        exact absurd hcs (by decide)
      have hh := splitLines_head (c :: rest)
      have htw : (c :: rest).takeWhile (fun x => !(x == '\n')) =
          c :: rest.takeWhile (fun x => !(x == '\n')) := by
        rw [List.takeWhile_cons]
        simp [hcnl]
      rw [htw] at hh
      obtain ⟨t, hsplit⟩ : ∃ t, splitLines (c :: rest) =
          (c :: rest.takeWhile (fun x => !(x == '\n'))) :: t := by
        cases hs : splitLines (c :: rest) with
        | nil => exact absurd hs (splitLines_ne_nil _)
        | cons a b =>
          rw [hs] at hh
          simp only [List.headD_cons] at hh
          exact ⟨b, by rw [hh]⟩
      have hfl : pyStrip ((splitLines (pyStrip raw)).headD []) ≠ [] := by
        rw [hm, hsplit]
        simp only [List.headD_cons]
        exact pyStrip_cons_ne_nil c _ hcs
      have hL : postProcess raw =
          pyRstripPunct (pyStrip ((splitLines (pyStrip raw)).headD [])) := by
        rw [postProcess_eq, if_pos hnl, if_pos hfl]
      have hfilter : ((splitLines (pyStrip raw)).filter (fun s => !s.isEmpty)).headD [] =
          (splitLines (pyStrip raw)).headD [] := by
        rw [hm, hsplit]
        rw [List.filter_cons_of_pos (by simp)]
        simp only [List.headD_cons]
      rw [hL]
      unfold amendedC6Post firstNonEmptyLine
      rw [hfilter]
  case neg =>
    have hL : postProcess raw = pyRstripPunct (pyStrip raw) := by
      rw [postProcess_eq, if_neg hnl]
    rw [Bool.not_eq_true] at hnl
    cases hm : pyStrip raw with
    | nil =>
      rw [hL, hm]
      unfold amendedC6Post firstNonEmptyLine
      rw [hm]
      rfl
    | cons c rest =>
      rw [hm] at hnl
      have hsplit := splitLines_of_not_contains (c :: rest) hnl
      have hidem := pyStrip_idem raw
      rw [hm] at hidem
      rw [hL, hm]
      unfold amendedC6Post firstNonEmptyLine
      rw [hm, hsplit]
      rw [List.filter_cons_of_pos (by simp)]
      simp only [List.headD_cons, List.filter_nil]
      rw [hidem]

/-- C4, counterexample: for the style "bogus", which is outside the
enumerated set, create_prompt does not fail: it produces exactly the
concise-style prompt, while the claim's contract says no prompt may be
produced (none) outside the set. -/
theorem claim_C4_cex :
    createPrompt [] ("bogus".toList) [] = createPrompt [] ("concise".toList) [] ∧
      claimC4Build [] ("bogus".toList) [] = none :=
  ⟨by rfl, by rfl⟩

/-- C4, amended: create_prompt is a total pure function that never fails; the
styles conventional, compact and detailed select their own substituted
templates, and every other style string, concise included, falls through to
the concise template. -/
theorem claim_C4_thm (diff : Str) (files : List Str) (style : Str) :
    (createPrompt diff ("conventional".toList) files =
        formatTemplate conventionalPre (List.intercalate ['\n'] files) diff) ∧
    (createPrompt diff ("compact".toList) files =
        formatTemplate compactPre (List.intercalate ['\n'] files) diff) ∧
    (createPrompt diff ("detailed".toList) files =
        formatTemplate detailedPre (List.intercalate ['\n'] files) diff) ∧
    (style ≠ "conventional".toList → style ≠ "compact".toList →
      style ≠ "detailed".toList →
      createPrompt diff style files =
        formatTemplate concisePre (List.intercalate ['\n'] files) diff) := by
  refine ⟨by rfl, by rfl, by rfl, ?_⟩
  intro h1 h2 h3
  unfold createPrompt
  rw [if_neg h1, if_neg h2, if_neg h3]

/-- C4, witness: instantiating the amended statement at the unknown style
"weird" with empty diff and file list. -/
theorem claim_C4_wit :
    createPrompt [] ("weird".toList) [] =
      formatTemplate concisePre (List.intercalate ['\n'] ([] : List Str)) [] :=
  (claim_C4_thm [] [] ("weird".toList)).2.2.2 (by decide) (by decide) (by decide)

theorem getLast?_cons_of_ne_nil (a : Char) (l : Str) (h : l ≠ []) :
    (a :: l).getLast? = l.getLast? := by
  cases l with
  | nil => exact absurd rfl h
  | cons b m => exact List.getLast?_cons_cons

theorem getLast?_append_of_ne_nil (l₁ l₂ : Str) (h : l₂ ≠ []) :
    (l₁ ++ l₂).getLast? = l₂.getLast? := by
  rw [List.getLast?_append]
  cases hl : l₂.getLast? with
  | none => rw [List.getLast?_eq_none_iff] at hl; exact absurd hl h
  | some x => rfl

theorem ticket_shape_word (t : Str)
    (ht : (∃ u d, UpperRun u ∧ DigitRun d ∧ t = u ++ '-' :: d) ∨ t = nojiraTicket) :
    t ≠ [] ∧ (∀ c, t.head? = some c → isWordChar c = true) ∧
      (∀ c, t.getLast? = some c → isWordChar c = true) := by
  rcases ht with ⟨u, d, hu, hd, rfl⟩ | rfl
  · obtain ⟨hune, humem⟩ := hu
    obtain ⟨hdne, hdmem⟩ := hd
    cases u with
    | nil => exact absurd rfl hune
    | cons a u' =>
      refine ⟨by simp, ?_, ?_⟩
      · intro c hc
        simp only [List.cons_append, List.head?_cons, Option.some.injEq] at hc
        subst hc
        have ha := humem a (by simp)
        unfold isUpperAZ at ha
        unfold isWordChar
        rw [ha]
        simp
      · intro c hc
        rw [getLast?_append_of_ne_nil _ _ (by simp)] at hc
        rw [getLast?_cons_of_ne_nil '-' d hdne] at hc
        have hcd : c ∈ d := by
          obtain ⟨hd', rfl⟩ := List.mem_getLast?_eq_getLast (Option.mem_def.mpr hc)
          exact List.getLast_mem hd'
        have hcdig := hdmem c hcd
        unfold isDigit09 at hcdig
        unfold isWordChar
        rw [hcdig]
        simp
  · refine ⟨by decide, ?_, ?_⟩
    · intro c hc
      have : nojiraTicket.head? = some 'N' := by decide
      rw [this] at hc
      obtain rfl : 'N' = c := by simpa using hc
      decide
    · intro c hc
      have : nojiraTicket.getLast? = some 'A' := by decide
      rw [this] at hc
      obtain rfl : 'A' = c := by simpa using hc
      decide

theorem containsTicketWord_prepend (t msg : Str) (hne : t ≠ [])
    (hhead : ∀ c, t.head? = some c → isWordChar c = true)
    (hlast : ∀ c, t.getLast? = some c → isWordChar c = true) :
    containsTicketWord (t ++ ':' :: ' ' :: msg) t = true := by
  unfold containsTicketWord
  rw [List.any_eq_true]
  refine ⟨0, by simp, ?_⟩
  have htl : 0 < t.length := List.length_pos.mpr hne
  have hw0 : wordAt (t ++ ':' :: ' ' :: msg) 0 = true := by
    unfold wordAt
    rw [List.getElem?_append, if_pos htl, ← List.head?_eq_getElem?]
    cases hh : t.head? with
    | none => rw [List.head?_eq_none_iff] at hh; exact absurd hh hne
    | some c => exact hhead c hh
  have hwlast : wordAt (t ++ ':' :: ' ' :: msg) (t.length - 1) = true := by
    unfold wordAt
    rw [List.getElem?_append, if_pos (by omega)]
    cases hgl : t.getLast? with
    | none => rw [List.getLast?_eq_none_iff] at hgl; exact absurd hgl hne
    | some c =>
      rw [List.getLast?_eq_getElem?] at hgl
      rw [hgl]
      exact hlast c (by rw [List.getLast?_eq_getElem?, hgl])
  have hwcolon : wordAt (t ++ ':' :: ' ' :: msg) t.length = false := by
    unfold wordAt
    rw [List.getElem?_append, if_neg (by omega), Nat.sub_self]
    rfl
  have hb0 : boundaryAt (t ++ ':' :: ' ' :: msg) 0 = true := by
    unfold boundaryAt
    rw [if_pos rfl, hw0]
    rfl
  have hbend : boundaryAt (t ++ ':' :: ' ' :: msg) (0 + t.length) = true := by
    unfold boundaryAt
    rw [Nat.zero_add]
    rw [if_neg (by omega), hwlast, hwcolon]
    rfl
  rw [List.drop_zero, hb0, hbend]
  have hpre : t.isPrefixOf (t ++ ':' :: ' ' :: msg) = true := by
    rw [List.isPrefixOf_iff_prefix]
    exact List.prefix_append t _
  rw [hpre]
  rfl

/-- C8: ticket prefixing is idempotent.  For any message and any string of
extracted-ticket shape (letters-hyphen-digits, or the literal NOJIRA): a
message already containing the ticket as a whole word is left unchanged, a
message lacking it gets "<ticket>: " prepended, and applying the operation
twice equals applying it once, so prefixing never duplicates the ticket. -/
theorem claim_C8_thm (t msg : Str)
    (ht : (∃ u d, UpperRun u ∧ DigitRun d ∧ t = u ++ '-' :: d) ∨ t = nojiraTicket) :
    (containsTicketWord msg t = true → withTicket t msg = msg) ∧
    (containsTicketWord msg t = false → withTicket t msg = t ++ ':' :: ' ' :: msg) ∧
    withTicket t (withTicket t msg) = withTicket t msg := by
  obtain ⟨hne, hhead, hlast⟩ := ticket_shape_word t ht
  refine ⟨?_, ?_, ?_⟩
  · intro h
    simp [withTicket, h]
  · intro h
    simp [withTicket, h]
  · cases hc : containsTicketWord msg t with
    | true => simp [withTicket, hc]
    | false =>
      have h1 : withTicket t msg = t ++ ':' :: ' ' :: msg := by
        unfold withTicket
        rw [hc]
        simp
      rw [h1]
      show withTicket t (t ++ ':' :: ' ' :: msg) = t ++ ':' :: ' ' :: msg
      unfold withTicket
      rw [containsTicketWord_prepend t msg hne hhead hlast]
      simp

/-- C8, witness: the statement instantiated at ticket SI-1234 and message
"fix stuff", which lacks the ticket. -/
theorem claim_C8_wit :
    (containsTicketWord ("fix stuff".toList) ("SI-1234".toList) = true →
        withTicket ("SI-1234".toList) ("fix stuff".toList) = "fix stuff".toList) ∧
    (containsTicketWord ("fix stuff".toList) ("SI-1234".toList) = false →
        withTicket ("SI-1234".toList) ("fix stuff".toList) =
          "SI-1234".toList ++ ':' :: ' ' :: "fix stuff".toList) ∧
    withTicket ("SI-1234".toList)
        (withTicket ("SI-1234".toList) ("fix stuff".toList)) =
      withTicket ("SI-1234".toList) ("fix stuff".toList) :=
  claim_C8_thm ("SI-1234".toList) ("fix stuff".toList)
    (Or.inl ⟨"SI".toList, "1234".toList, ⟨by decide, by decide⟩,
      ⟨by decide, by decide⟩, by decide⟩)

theorem takeWhile_all_append (p : Char → Bool) (u r : Str)
    (hu : ∀ c ∈ u, p c = true) (hr : ∀ c, r.head? = some c → p c = false) :
    (u ++ r).takeWhile p = u := by
  induction u with
  | nil =>
    simp only [List.nil_append]
    cases r with
    | nil => rfl
    | cons c rest =>
      have := hr c rfl
      rw [List.takeWhile_cons]
      simp [this]
  | cons a u' ih =>
    have ha : p a = true := hu a (by simp)
    rw [List.cons_append, List.takeWhile_cons_of_pos ha,
      ih (fun c hc => hu c (List.mem_cons_of_mem a hc))]

theorem dropWhile_all_append (p : Char → Bool) (u r : Str)
    (hu : ∀ c ∈ u, p c = true) (hr : ∀ c, r.head? = some c → p c = false) :
    (u ++ r).dropWhile p = r := by
  induction u with
  | nil =>
    simp only [List.nil_append]
    exact dropWhile_eq_self_of_head p r hr
  | cons a u' ih =>
    have ha : p a = true := hu a (by simp)
    rw [List.cons_append, List.dropWhile_cons_of_pos ha,
      ih (fun c hc => hu c (List.mem_cons_of_mem a hc))]

theorem ticketAt_some_iff (l t : Str) : ticketAt l = some t ↔ TicketAtSpec l t := by
  constructor
  · intro h
    simp only [ticketAt] at h
    by_cases hu : l.takeWhile isUpperAZ = []
    · rw [if_pos hu] at h
      exact absurd h (by simp)
    · rw [if_neg hu] at h
      by_cases hh : (l.dropWhile isUpperAZ).head? = some '-'
      · rw [if_pos hh] at h
        by_cases hd : (l.dropWhile isUpperAZ).tail.takeWhile isDigit09 = []
        · rw [if_pos hd] at h
          exact absurd h (by simp)
        · rw [if_neg hd] at h
          have ht : l.takeWhile isUpperAZ ++
              '-' :: (l.dropWhile isUpperAZ).tail.takeWhile isDigit09 = t := by
            simpa using h
          refine ⟨l.takeWhile isUpperAZ,
            (l.dropWhile isUpperAZ).tail.takeWhile isDigit09,
            (l.dropWhile isUpperAZ).tail.dropWhile isDigit09,
            ⟨hu, fun c hc => List.mem_takeWhile_imp hc⟩,
            ⟨hd, fun c hc => List.mem_takeWhile_imp hc⟩, ht.symm, ?_, ?_⟩
          · rw [List.takeWhile_append_dropWhile]
            cases hrest : l.dropWhile isUpperAZ with
            | nil => rw [hrest] at hh; exact absurd hh (by simp)
            | cons a rest' =>
              rw [hrest] at hh
              simp only [List.head?_cons, Option.some.injEq] at hh
              subst hh
              conv_lhs => rw [← List.takeWhile_append_dropWhile isUpperAZ l, hrest]
              simp [List.takeWhile_append_dropWhile]
          · intro c hc
            exact head?_dropWhile_not isDigit09 _ c hc
      · rw [if_neg hh] at h
        exact absurd h (by simp)
  · rintro ⟨u, d, r, ⟨hune, humem⟩, ⟨hdne, hdmem⟩, ht, hl, hr⟩
    have hsepu : ∀ c, ('-' :: (d ++ r)).head? = some c → isUpperAZ c = false := by
      intro c hc
      simp only [List.head?_cons, Option.some.injEq] at hc
      subst hc
      decide
    have htw : l.takeWhile isUpperAZ = u := by
      rw [hl]; exact takeWhile_all_append isUpperAZ u _ humem hsepu
    have hdw : l.dropWhile isUpperAZ = '-' :: (d ++ r) := by
      rw [hl]; exact dropWhile_all_append isUpperAZ u _ humem hsepu
    have hdtw : (d ++ r).takeWhile isDigit09 = d :=
      takeWhile_all_append isDigit09 d r hdmem hr
    simp only [ticketAt]
    rw [if_neg (htw ▸ hune), hdw]
    simp only [List.head?_cons, List.tail_cons]
    rw [if_pos trivial, hdtw, if_neg hdne, htw, ht]

theorem ticketAtSpec_nil (t : Str) : ¬ TicketAtSpec [] t := by
  rintro ⟨u, d, r, ⟨hune, _⟩, _, _, hl, _⟩
  cases u with
  | nil => exact hune rfl
  | cons a u' => simp at hl

theorem eligAt_cons_succ (elig : Bool) (c : Char) (rest : Str) (i : Nat) :
    EligAt elig (c :: rest) (i + 1) ↔ EligAt (isTicketSep c) rest i := by
  cases i with
  | zero =>
    simp only [EligAt]
    constructor
    · rintro ⟨c₀, hc₀, hsep⟩
      simp only [List.getElem?_cons_zero, Option.some.injEq] at hc₀
      subst hc₀
      exact hsep
    · intro h
      exact ⟨c, by simp, h⟩
  | succ j =>
    simp only [EligAt]
    constructor
    · rintro ⟨c₀, hc₀, hsep⟩
      exact ⟨c₀, by simpa using hc₀, hsep⟩
    · rintro ⟨c₀, hc₀, hsep⟩
      exact ⟨c₀, by simpa using hc₀, hsep⟩

theorem searchTicket_some_iff (l : Str) : ∀ (elig : Bool) (t : Str),
    searchTicket elig l = some t ↔ FirstTicketMatch elig l t := by
  induction l with
  | nil =>
    intro elig t
    constructor
    · intro h
      exact absurd h (by simp [searchTicket])
    · rintro ⟨i, hel, hsp, _⟩
      rw [List.drop_nil] at hsp
      exact absurd hsp (ticketAtSpec_nil t)
  | cons c rest ih =>
    intro elig t
    cases elig with
    | true =>
      cases hAt : ticketAt (c :: rest) with
      | some t0 =>
        have hL : searchTicket true (c :: rest) = some t0 := by
          simp [searchTicket, hAt]
        rw [hL]
        constructor
        · intro h
          obtain rfl : t0 = t := by simpa using h
          refine ⟨0, rfl, ?_, ?_⟩
          · rw [List.drop_zero]
            exact (ticketAt_some_iff _ _).mp hAt
          · intro j hj
            exact absurd hj (Nat.not_lt_zero j)
        · rintro ⟨i, hel, hsp, hmin⟩
          cases i with
          | zero =>
            rw [List.drop_zero] at hsp
            have h2 := (ticketAt_some_iff _ t).mpr hsp
            rw [hAt] at h2
            exact h2
          | succ j =>
            exfalso
            exact hmin 0 (Nat.succ_pos j) rfl t0
              (by rw [List.drop_zero]; exact (ticketAt_some_iff _ _).mp hAt)
      | none =>
        have hL : searchTicket true (c :: rest) = searchTicket (isTicketSep c) rest := by
          simp [searchTicket, hAt]
        rw [hL, ih (isTicketSep c) t]
        constructor
        · rintro ⟨i, hel, hsp, hmin⟩
          refine ⟨i + 1, (eligAt_cons_succ _ c rest i).mpr hel,
            by rwa [List.drop_succ_cons], ?_⟩
          intro j hj helj s hsps
          cases j with
          | zero =>
            rw [List.drop_zero] at hsps
            exact absurd ((ticketAt_some_iff _ s).mpr hsps) (by rw [hAt]; simp)
          | succ j' =>
            exact hmin j' (by omega) ((eligAt_cons_succ _ c rest j').mp helj) s
              (by rwa [List.drop_succ_cons] at hsps)
        · rintro ⟨i, hel, hsp, hmin⟩
          cases i with
          | zero =>
            rw [List.drop_zero] at hsp
            exact absurd ((ticketAt_some_iff _ t).mpr hsp) (by rw [hAt]; simp)
          | succ j =>
            refine ⟨j, (eligAt_cons_succ _ c rest j).mp hel,
              by rwa [List.drop_succ_cons] at hsp, ?_⟩
            intro j' hj' helj' s hsps
            exact hmin (j' + 1) (by omega) ((eligAt_cons_succ _ c rest j').mpr helj') s
              (by rwa [List.drop_succ_cons])
    | false =>
      have hL : searchTicket false (c :: rest) = searchTicket (isTicketSep c) rest := by
        simp [searchTicket]
      rw [hL, ih (isTicketSep c) t]
      constructor
      · rintro ⟨i, hel, hsp, hmin⟩
        refine ⟨i + 1, (eligAt_cons_succ _ c rest i).mpr hel,
          by rwa [List.drop_succ_cons], ?_⟩
        intro j hj helj s hsps
        cases j with
        | zero => exact absurd helj (by simp [EligAt])
        | succ j' =>
          exact hmin j' (by omega) ((eligAt_cons_succ _ c rest j').mp helj) s
            (by rwa [List.drop_succ_cons] at hsps)
      · rintro ⟨i, hel, hsp, hmin⟩
        cases i with
        | zero => exact absurd hel (by simp [EligAt])
        | succ j =>
          refine ⟨j, (eligAt_cons_succ _ c rest j).mp hel,
            by rwa [List.drop_succ_cons] at hsp, ?_⟩
          intro j' hj' helj' s hsps
          exact hmin (j' + 1) (by omega) ((eligAt_cons_succ _ c rest j').mpr helj') s
            (by rwa [List.drop_succ_cons])

/-- C7: ticket extraction returns the ticket of the leftmost match of the
anchored pattern (one-or-more uppercase letters, hyphen, one-or-more digits,
starting at the beginning of the branch name or right after a slash or
hyphen); with no such match it returns NOJIRA exactly when the branch name
contains "nojira" case-insensitively, absent otherwise; in particular the
three example branch names behave as claimed. -/
theorem claim_C7_thm :
    (∀ b t, searchTicket true b = some t ↔ FirstTicketMatch true b t) ∧
    (∀ b, (∀ t, ¬ FirstTicketMatch true (pyStrip b) t) →
      extractTicketFromBranch true b =
        (if isSubstring nojiraLower (pyLower (pyStrip b)) then some nojiraTicket
         else none)) ∧
    extractTicketFromBranch true ("feature/SI-1234-desc".toList) =
      some ("SI-1234".toList) ∧
    extractTicketFromBranch true ("chore/nojira-cleanup".toList) = some nojiraTicket ∧
    extractTicketFromBranch true ("main".toList) = none := by
  refine ⟨fun b t => searchTicket_some_iff b true t, ?_, by decide, by decide, by decide⟩
  intro b hnone
  have hs : searchTicket true (pyStrip b) = none := by
    cases hs : searchTicket true (pyStrip b) with
    | none => rfl
    | some t => exact absurd ((searchTicket_some_iff _ true t).mp hs) (hnone t)
  simp only [extractTicketFromBranch, if_pos rfl]
  rw [hs]
  rfl

/-- C7, witness: the characterization applied to the first example branch. -/
theorem claim_C7_wit :
    extractTicketFromBranch true ("feature/SI-1234-desc".toList) =
      some ("SI-1234".toList) :=
  claim_C7_thm.2.2.1

/-- C3, counterexample: when the editor invocation raises (for instance the
configured editor binary is missing), edit_message never removes the
temporary file — the unlink step is skipped on that exit path, so cleanup is
not guaranteed on every exit path. -/
theorem claim_C3_cex :
    EditAction.unlinkTmp ∉
      (editMessage { baseEnv with editorRaises := true } ['m']).1 := by
  decide

/-- C3, amended: edit_message creates the temporary file, writes the current
message, runs the editor as a blocking process and removes the file on the
normal path — including when the editor merely exits with a nonzero status,
which subprocess.call does not turn into an exception — returning the file's
final contents; but when the editor invocation or the reread raises an
exception, the temporary file is not removed (there is no try/finally). -/
theorem claim_C3_thm (env : Env) (m : Str) :
    (env.editorRaises = false → env.editorReadRaises = false →
      editMessage env m =
        ([.writeTmp m, .callEditor, .readTmp, .unlinkTmp], .ok env.editedMessage)) ∧
    (env.editorRaises = true → EditAction.unlinkTmp ∉ (editMessage env m).1) ∧
    (env.editorReadRaises = true → EditAction.unlinkTmp ∉ (editMessage env m).1) := by
  refine ⟨?_, ?_, ?_⟩
  · intro h1 h2
    simp [editMessage, h1, h2]
  · intro h1
    simp [editMessage, h1]
  · intro h2
    cases h1 : env.editorRaises with
    | true => simp [editMessage, h1]
    | false => simp [editMessage, h1, h2]

/-- C3, witness: in an environment where nothing raises, the four steps run
in order, the unlink included, and the edited contents are returned. -/
theorem claim_C3_wit :
    editMessage baseEnv ['m'] =
      ([.writeTmp ['m'], .callEditor, .readTmp, .unlinkTmp],
        .ok baseEnv.editedMessage) :=
  (claim_C3_thm baseEnv ['m']).1 rfl rfl

/-- C5, counterexample: in an environment whose staged diff stays empty while
unstaged changes remain and the user keeps accepting, get_git_diff does not
stop after one restage-and-retry cycle: with fuel 3 it has already prompted
to stage a third time (promptStage 2) and is still recursing, instead of
ending in the claimed empty-diff termination at the first retry. -/
theorem claim_C5_cex :
    (getGitDiff envLoop 3 0).2 = .halt .fuelOut ∧
      Action.promptStage 2 ∈ (getGitDiff envLoop 3 0).1 := by
  decide

/-- C5, amended: get_git_diff bounds nothing: every time the staged diff is
empty, unstaged changes exist, the user accepts staging and git add succeeds,
the whole check is re-entered as a fresh recursive call — there is no
one-retry cap and no forced empty-diff termination on the second pass. -/
theorem claim_C5_thm (env : Env) (fuel k : Nat)
    (h1 : env.stagedOk k = true)
    (h2 : pyStrip (env.stagedOut k) = [])
    (h3 : pyStrip (env.unstagedOut k) ≠ [])
    (h4 : pyLower (env.stageChoice k) = ['y'])
    (h5 : env.addOk k = true) :
    getGitDiff env (fuel + 1) k =
      ([.runDiffStaged k, .runDiffUnstaged k, .promptStage k, .runGitAdd k] ++
        (getGitDiff env fuel (k + 1)).1, (getGitDiff env fuel (k + 1)).2) := by
  simp [getGitDiff, h1, h2, h3, h4, h5]

/-- C5, witness: one unfolding of the recursion in the looping environment. -/
theorem claim_C5_wit :
    getGitDiff envLoop 2 0 =
      ([.runDiffStaged 0, .runDiffUnstaged 0, .promptStage 0, .runGitAdd 0] ++
        (getGitDiff envLoop 1 1).1, (getGitDiff envLoop 1 1).2) :=
  claim_C5_thm envLoop 1 0 (by decide) (by decide) (by decide) (by decide) (by decide)

/-- C9: diff collection returns the staged diff at once, with no prompt in
its trace, whenever the staged diff is nonempty; when both diffs are empty,
or when the user declines to stage, it prints the informational message and
halts with exit code 0; and in those two halting situations the whole run
exits 0 with no generation step in its trace. -/
theorem claim_C9_thm (env : Env) (opts : Opts) (fuel k : Nat) :
    (env.stagedOk k = true → pyStrip (env.stagedOut k) ≠ [] →
      getGitDiff env (fuel + 1) k = ([.runDiffStaged k], .diff (env.stagedOut k))) ∧
    (env.stagedOk k = true → pyStrip (env.stagedOut k) = [] →
      pyStrip (env.unstagedOut k) = [] →
      getGitDiff env (fuel + 1) k =
        ([.runDiffStaged k, .runDiffUnstaged k, .printNothingToDo], .halt (.exit 0))) ∧
    (env.stagedOk k = true → pyStrip (env.stagedOut k) = [] →
      pyStrip (env.unstagedOut k) ≠ [] → pyLower (env.stageChoice k) ≠ ['y'] →
      getGitDiff env (fuel + 1) k =
        ([.runDiffStaged k, .runDiffUnstaged k, .promptStage k, .printNothingToDo],
          .halt (.exit 0))) ∧
    (env.gitOk = true → env.ollamaOk = true → opts.branch = none →
      env.stagedOk 0 = true → pyStrip (env.stagedOut 0) = [] →
      pyStrip (env.unstagedOut 0) = [] →
      (mainRun opts env (fuel + 1)).2 = .exit 0 ∧
        Action.runGenerate ∉ (mainRun opts env (fuel + 1)).1) ∧
    (env.gitOk = true → env.ollamaOk = true → opts.branch = none →
      env.stagedOk 0 = true → pyStrip (env.stagedOut 0) = [] →
      pyStrip (env.unstagedOut 0) ≠ [] → pyLower (env.stageChoice 0) ≠ ['y'] →
      (mainRun opts env (fuel + 1)).2 = .exit 0 ∧
        Action.runGenerate ∉ (mainRun opts env (fuel + 1)).1) := by
  refine ⟨?_, ?_, ?_, ?_, ?_⟩
  · intro h1 h2
    simp [getGitDiff, h1, h2]
  · intro h1 h2 h3
    simp [getGitDiff, h1, h2, h3]
  · intro h1 h2 h3 h4
    simp [getGitDiff, h1, h2, h3, h4]
  · intro hg ho hb h1 h2 h3
    simp [mainRun, branchPhase, checkDependencies, getGitDiff, hg, ho, hb, h1, h2, h3]
  · intro hg ho hb h1 h2 h3 h4
    simp [mainRun, branchPhase, checkDependencies, getGitDiff, hg, ho, hb, h1, h2, h3, h4]

/-- C9, witness: the first part instantiated in the environment with a
nonempty staged diff. -/
theorem claim_C9_wit :
    getGitDiff baseEnv 1 0 = ([.runDiffStaged 0], .diff (baseEnv.stagedOut 0)) :=
  (claim_C9_thm baseEnv baseOpts 0 0).1 (by decide) (by decide)

theorem commitPhase_yes_mem (opts : Opts) (env : Env) (m : Str)
    (hdry : opts.dryRun = false) (hyes : opts.yes = true) :
    Action.runCommit m ∈ (commitPhase opts env m).1 := by
  simp only [commitPhase, hdry, hyes, Bool.not_false, if_true]
  cases hc : env.commitOk with
  | false => simp [hc]
  | true =>
    simp only [hc, Bool.not_true, Bool.false_eq_true, if_false]
    split
    · split <;> simp
    · split <;> simp

/-- C1, counterexample: with a successful pipeline and an empty generation
response, the yes-mode run reaches the commit step and hands the empty string
to the commit command — no emptiness check terminates the run first. -/
theorem claim_C1_cex :
    Action.runCommit [] ∈
      (mainRun { baseOpts with yes := true }
        { baseEnv with rawResponse := [] } 1).1 := by
  decide

/-- C1, amended: in every yes-mode run that reaches the commit step (shown
here without prefix or edit), the message handed to the commit command is
exactly the post-processed generation result, with no emptiness check in
between: an empty generation result is committed as the empty string, and
only the commit command's own failure can then stop the run. -/
theorem claim_C1_thm (opts : Opts) (env : Env) (fuel : Nat)
    (hyes : opts.yes = true) (hdry : opts.dryRun = false)
    (hedit : opts.edit = false) (hpre : opts.prefixFlag = false)
    (hbr : opts.branch = none)
    (hgit : env.gitOk = true) (holl : env.ollamaOk = true)
    (hst : env.stagedOk 0 = true) (hsd : pyStrip (env.stagedOut 0) ≠ [])
    (hf : env.filesOk = true) (hhttp : env.httpOk = true) :
    Action.runCommit (postProcess env.rawResponse) ∈
      (mainRun opts env (fuel + 1)).1 := by
  have hmem := commitPhase_yes_mem opts env (postProcess env.rawResponse) hdry hyes
  simp [mainRun, branchPhase, checkDependencies, getGitDiff, hgit, holl, hbr, hst, hsd, hf,
    hhttp, hedit, hpre, hmem]

/-- C1, witness: the amended statement at the environment whose generation
response is empty; the committed message is postProcess of the empty string,
which is empty. -/
theorem claim_C1_wit :
    Action.runCommit (postProcess ([] : Str)) ∈
      (mainRun { baseOpts with yes := true }
        { baseEnv with rawResponse := [] } 1).1 :=
  claim_C1_thm { baseOpts with yes := true } { baseEnv with rawResponse := [] } 0
    rfl rfl rfl rfl rfl rfl rfl rfl (by decide) rfl rfl

theorem checkDependencies_actions (env : Env) (a : Action)
    (h : a ∈ (checkDependencies env).1) : a = .checkGit ∨ a = .checkOllama := by
  unfold checkDependencies at h
  repeat' split at h
  all_goals simp at h
  all_goals tauto

theorem createBranch_actions (env : Env) (a : Action)
    (h : a ∈ (createBranch env).1) :
    a = .runShowRef ∨ a = .promptSwitch ∨ a = .runCheckoutExisting ∨
      a = .runCheckoutNew := by
  unfold createBranch at h
  repeat' split at h
  all_goals simp at h
  all_goals tauto

theorem pushChanges_actions (env : Env) (a : Action)
    (h : a ∈ (pushChanges env).1) : a = .runPushRevParse ∨ a = .runPush := by
  unfold pushChanges getCurrentBranch at h
  repeat' split at h
  all_goals first
    | (simp at h; tauto)
    | (dsimp only at h; split at h <;> (simp at h) <;> tauto)

theorem createPr_actions (env : Env) (a : Action)
    (h : a ∈ (createPr env).1) :
    a = .runCheckBase ∨ a = .runRemoteList ∨ a = .runFetchBase ∨
      a = .runPrTool := by
  unfold createPr checkBaseBranch at h
  repeat' split at h
  all_goals simp at h
  all_goals tauto

theorem getGitDiff_actions (env : Env) :
    ∀ fuel k a, a ∈ (getGitDiff env fuel k).1 → isDiffPhaseAction a = true := by
  intro fuel
  induction fuel with
  | zero =>
    intro k a h
    simp [getGitDiff] at h
  | succ n ih =>
    intro k a h
    simp only [getGitDiff] at h
    split at h
    · simp at h; subst h; rfl
    · split at h
      · split at h
        · split at h
          · split at h
            · rw [List.mem_append] at h
              rcases h with h | h
              · simp at h
                rcases h with rfl | rfl | rfl | rfl <;> rfl
              · exact ih (k + 1) a h
            · simp at h
              rcases h with rfl | rfl | rfl | rfl <;> rfl
          · simp at h
            rcases h with rfl | rfl | rfl | rfl <;> rfl
        · simp at h
          rcases h with rfl | rfl | rfl <;> rfl
      · simp at h; subst h; rfl

theorem commitPhase_dryRun (opts : Opts) (env : Env) (m : Str)
    (h : opts.dryRun = true) :
    commitPhase opts env m = ([.printDryRun], .exit 0) := by
  simp [commitPhase, h]

theorem commitPhase_yes_pr (opts : Opts) (env : Env) (m : Str)
    (hyes : opts.yes = true)
    (h : Action.runPrTool ∈ (commitPhase opts env m).1) :
    opts.pr = true ∧ env.commitOk = true ∧ (pushChanges env).2 = true := by
  by_cases hdry : opts.dryRun = true
  · rw [commitPhase_dryRun opts env m hdry] at h
    simp at h
  · rw [Bool.not_eq_true] at hdry
    simp only [commitPhase, hdry, hyes, Bool.not_false, if_true] at h
    cases hc : env.commitOk with
    | false =>
      simp only [hc, Bool.not_false, if_true] at h
      simp at h
    | true =>
      simp only [hc, Bool.not_true, Bool.false_eq_true, if_false] at h
      by_cases hcond :
          (opts.pr && (if opts.push || opts.pr then pushChanges env
            else ([], false)).2) = true
      · rw [Bool.and_eq_true] at hcond
        obtain ⟨hpr, hps⟩ := hcond
        have hor : (opts.push || opts.pr) = true := by
          rw [hpr]; simp
        rw [if_pos hor] at hps
        exact ⟨hpr, rfl, hps⟩
      · rw [if_neg hcond] at h
        exfalso
        rcases List.mem_append.mp h with h | h
        · simp at h
        · split at h
          · rcases pushChanges_actions env _ h with h | h <;> simp at h
          · simp at h

theorem isDiffPhase_pre (a : Action) (h : isDiffPhaseAction a = true) :
    isPrePhaseAction a = true := by
  cases a <;> simp_all [isDiffPhaseAction, isPrePhaseAction]

theorem checkDependencies_pre (env : Env) (a : Action)
    (h : a ∈ (checkDependencies env).1) : isPrePhaseAction a = true := by
  rcases checkDependencies_actions env a h with rfl | rfl <;> rfl

theorem branchTrace_pre (opts : Opts) (env : Env) (a : Action)
    (h : a ∈ (branchPhase opts env).1) : isPrePhaseAction a = true := by
  unfold branchPhase at h
  cases hb : opts.branch with
  | none => rw [hb] at h; simp at h
  | some b =>
    rw [hb] at h
    rcases createBranch_actions env a h with rfl | rfl | rfl | rfl <;> rfl

theorem titeTicket_pre (c : Bool) (b : Action)
    (hb : b ∈ (if c then [Action.runTicketRevParse] else [])) :
    isPrePhaseAction b = true := by
  split at hb
  · simp at hb; subst hb; rfl
  · simp at hb

theorem pre2_pre (opts : Opts) (env : Env) (fuel : Nat) (a : Action) (m : Str)
    (h : a ∈ (checkDependencies env).1 ++ (branchPhase opts env).1 ++
      (getGitDiff env fuel 0).1 ++
      [Action.runDiffNameOnly, Action.runGenerate] ++
      (if opts.prefixFlag then [Action.runTicketRevParse] else []) ++
      [Action.displayMessage m]) :
    isPrePhaseAction a = true := by
  rcases List.mem_append.mp h with h | h
  · rcases List.mem_append.mp h with h | h
    · rcases List.mem_append.mp h with h | h
      · rcases List.mem_append.mp h with h | h
        · rcases List.mem_append.mp h with h | h
          · exact checkDependencies_pre env a h
          · exact branchTrace_pre opts env a h
        · exact isDiffPhase_pre a (getGitDiff_actions env fuel 0 a h)
      · simp at h
        rcases h with rfl | rfl <;> rfl
    · exact titeTicket_pre opts.prefixFlag a h
  · simp at h; subst h; rfl

theorem mainRun_mem (opts : Opts) (env : Env) (fuel : Nat) (a : Action)
    (h : a ∈ (mainRun opts env fuel).1) :
    isPrePhaseAction a = true ∨ ∃ m, a ∈ (commitPhase opts env m).1 := by
  simp only [mainRun] at h
  split at h
  · exact Or.inl (checkDependencies_pre env a h)
  · split at h
    · rcases List.mem_append.mp h with h | h
      · exact Or.inl (checkDependencies_pre env a h)
      · exact Or.inl (branchTrace_pre opts env a h)
    · split at h
      · rcases List.mem_append.mp h with h | h
        · rcases List.mem_append.mp h with h | h
          · exact Or.inl (checkDependencies_pre env a h)
          · exact Or.inl (branchTrace_pre opts env a h)
        · exact Or.inl (isDiffPhase_pre a (getGitDiff_actions env fuel 0 a h))
      · split at h
        · rcases List.mem_append.mp h with h | h
          · rcases List.mem_append.mp h with h | h
            · rcases List.mem_append.mp h with h | h
              · exact Or.inl (checkDependencies_pre env a h)
              · exact Or.inl (branchTrace_pre opts env a h)
            · exact Or.inl (isDiffPhase_pre a (getGitDiff_actions env fuel 0 a h))
          · simp at h; subst h; exact Or.inl rfl
        · split at h
          · rcases List.mem_append.mp h with h | h
            · rcases List.mem_append.mp h with h | h
              · rcases List.mem_append.mp h with h | h
                · exact Or.inl (checkDependencies_pre env a h)
                · exact Or.inl (branchTrace_pre opts env a h)
              · exact Or.inl (isDiffPhase_pre a (getGitDiff_actions env fuel 0 a h))
            · simp at h
              rcases h with rfl | rfl <;> exact Or.inl rfl
          · split at h
            · split at h
              · rcases List.mem_append.mp h with h | h
                · exact Or.inl (pre2_pre opts env fuel a _ h)
                · simp at h; subst h; exact Or.inl rfl
              · rcases List.mem_append.mp h with h | h
                · rcases List.mem_append.mp h with h | h
                  · exact Or.inl (pre2_pre opts env fuel a _ h)
                  · simp at h; subst h; exact Or.inl rfl
                · exact Or.inr ⟨_, h⟩
            · rcases List.mem_append.mp h with h | h
              · exact Or.inl (pre2_pre opts env fuel a _ h)
              · exact Or.inr ⟨_, h⟩

theorem isPre_not_commit (a : Action) (h : isPrePhaseAction a = true) :
    isCommitAction a = false := by
  cases a <;> simp_all [isPrePhaseAction, isCommitAction]

/-- C2, counterexample: in interactive mode with the PR flag, a run in which
the user declines the commit confirmation but accepts the PR prompt still
invokes the PR tool — the trace contains the PR invocation and no commit
command at all, because main sets commit_success to True even after a
declined confirmation. -/
theorem claim_C2_cex :
    Action.runPrTool ∈
      (mainRun { baseOpts with pr := true }
        { baseEnv with commitChoice := ['n'], prPromptChoice := ['y'] } 1).1 ∧
    (mainRun { baseOpts with pr := true }
      { baseEnv with commitChoice := ['n'], prPromptChoice := ['y'] } 1).1.countP
        isCommitAction = 0 := by
  decide

/-- C2, amended: in non-interactive (yes) mode the claimed gating does hold:
whenever the PR tool is invoked, the PR flag was set, the commit command
succeeded and push_changes succeeded.  (In interactive mode the gate is only
the user's separate PR prompt — and push success when push was not automatic
— not the commit confirmation, as the counterexample shows.) -/
theorem claim_C2_thm (opts : Opts) (env : Env) (fuel : Nat)
    (hyes : opts.yes = true)
    (h : Action.runPrTool ∈ (mainRun opts env fuel).1) :
    opts.pr = true ∧ env.commitOk = true ∧ (pushChanges env).2 = true := by
  rcases mainRun_mem opts env fuel _ h with h | ⟨m, h⟩
  · exact absurd h (by decide)
  · exact commitPhase_yes_pr opts env m hyes h

/-- C2, witness: a yes-mode run with the PR flag in the successful
environment does invoke the PR tool, and the gating facts follow. -/
theorem claim_C2_wit :
    ({ baseOpts with yes := true, pr := true } : Opts).pr = true ∧
      baseEnv.commitOk = true ∧ (pushChanges baseEnv).2 = true :=
  claim_C2_thm { baseOpts with yes := true, pr := true } baseEnv 1 rfl (by decide)

/-- C10: when the dry-run flag is set, no commit, push or PR-creation command
appears anywhere in the run's trace — for any environment and any other
options — and a run that reaches the generation and display steps ends with
exit code 0. -/
theorem claim_C10_thm (opts : Opts) (env : Env) (fuel : Nat)
    (hdry : opts.dryRun = true) :
    ((mainRun opts env fuel).1.countP isCommitAction = 0 ∧
      Action.runPush ∉ (mainRun opts env fuel).1 ∧
      Action.runPrTool ∉ (mainRun opts env fuel).1) ∧
    (opts.branch = none → opts.edit = false → env.gitOk = true →
      env.ollamaOk = true → env.stagedOk 0 = true →
      pyStrip (env.stagedOut 0) ≠ [] → env.filesOk = true → env.httpOk = true →
      ∀ n, fuel = n + 1 → (mainRun opts env fuel).2 = .exit 0) := by
  refine ⟨⟨?_, ?_, ?_⟩, ?_⟩
  · rw [List.countP_eq_zero]
    intro a ha
    rcases mainRun_mem opts env fuel a ha with h | ⟨m, h⟩
    · have hf := isPre_not_commit a h
      simp [hf]
    · rw [commitPhase_dryRun opts env m hdry] at h
      simp at h
      subst h
      simp [isCommitAction]
  · intro hmem
    rcases mainRun_mem opts env fuel _ hmem with h | ⟨m, h⟩
    · exact absurd h (by decide)
    · rw [commitPhase_dryRun opts env m hdry] at h
      simp at h
  · intro hmem
    rcases mainRun_mem opts env fuel _ hmem with h | ⟨m, h⟩
    · exact absurd h (by decide)
    · rw [commitPhase_dryRun opts env m hdry] at h
      simp at h
  · intro hbr hedit hg ho hst hsd hf hh n hfuel
    subst hfuel
    have hcp := fun m => commitPhase_dryRun opts env m hdry
    simp [mainRun, branchPhase, checkDependencies, getGitDiff, hbr, hedit, hg,
      ho, hst, hsd, hf, hh, hcp]

/-- C10, witness: the statement instantiated at the dry-run options in the
successful environment, chaining into the exit-0 conclusion. -/
theorem claim_C10_wit :
    ((mainRun { baseOpts with dryRun := true } baseEnv 1).1.countP
        isCommitAction = 0 ∧
      Action.runPush ∉ (mainRun { baseOpts with dryRun := true } baseEnv 1).1 ∧
      Action.runPrTool ∉
        (mainRun { baseOpts with dryRun := true } baseEnv 1).1) ∧
    (mainRun { baseOpts with dryRun := true } baseEnv 1).2 = .exit 0 :=
  ⟨(claim_C10_thm { baseOpts with dryRun := true } baseEnv 1 rfl).1,
    (claim_C10_thm { baseOpts with dryRun := true } baseEnv 1 rfl).2 rfl rfl rfl
      rfl rfl (by decide) rfl rfl 0 rfl⟩

end LlmCommit
